import Mathlib

/-!
# simplechat: `client/socket_helper.js`

A shallow embedding of the two functions of `socket_helper.js`,
`send_messages` and `make_connections`, together with the part of the
WebSocket host interface they use (`new WebSocket`, `onopen`, `send`,
`close`, the `open` event).

Modelling conventions.

* A socket handle is the index of the socket in the list of all sockets
  created so far, so handles are allocated in creation order.
* Every operation performed on a socket is appended to a trace, which is the
  observable behaviour the statements below talk about.
* JavaScript numbers are embedded as integers: the counters of the source only
  take integral values and the embedding covers the range in which a double
  represents them exactly.
* The loop counter `i` of both functions is never declared in the source, so
  it is one global variable; it is a field of the world, absent until first
  assigned.
* Whether a `send` call throws is decided by the host, not by the script: the
  host behaviour is a parameter (`Env`), and a `send` on a socket that is still
  connecting always throws.
-/

namespace SocketHelper

/-- The endpoint literal that both functions pass to `new WebSocket`. -/
def endpoint : String := "ws://127.0.0.1:1234/connect"

/-- The `readyState` of a WebSocket. -/
inductive ReadyState where
  | CONNECTING
  | OPEN
  | CLOSING
  | CLOSED
  deriving DecidableEq, Repr

/-- The only event handler the source ever installs: the arrow function
`(e) => { s.send("rate_test"); for (...) {...}; s.close() }` of `send_messages`,
a closure over the argument `n` and the socket `s`. -/
inductive Handler where
  | burst (n : Int) (s : Nat)
  deriving DecidableEq, Repr

/-- One socket of the host. -/
structure Socket where
  url : String
  readyState : ReadyState
  onopen : Option Handler
  /-- How many times `send` has been called on this socket so far. -/
  sendCalls : Nat
  deriving DecidableEq, Repr

/-- What is recorded in the trace: the operations of the script on a socket,
and the `open` event dispatched by the host. -/
inductive Action where
  | construct (s : Nat) (url : String)
  | setOnopen (s : Nat) (h : Handler)
  | send (s : Nat) (msg : String)
  | close (s : Nat)
  | openEvent (s : Nat)
  deriving DecidableEq, Repr

/-- The exceptions that can occur. -/
inductive JSError where
  | referenceError
  | typeError
  | sendError
  deriving DecidableEq, Repr

/-- How a piece of script finishes: normally with a value, or by throwing. -/
inductive Completion (α : Type) where
  | normal (v : α)
  | throw (e : JSError)
  deriving DecidableEq, Repr

/-- The host behaviour the script has no control over: `sendThrows s j` tells
whether the call number `j` (counted from 0) of `send` on socket `s` throws. -/
structure Env where
  sendThrows : Nat → Nat → Bool

/-- The host in which no `send` on an open socket ever throws. -/
def Env.reliable : Env := ⟨fun _ _ => false⟩

/-- The sockets created so far, in creation order, and the trace. -/
structure Net where
  sockets : List Socket
  trace : List Action
  deriving DecidableEq, Repr

/-- The whole state: the global variable `i` and the host state. -/
structure World where
  i : Option Int
  net : Net
  deriving DecidableEq, Repr

/-- The state before anything ran: `i` does not exist, there is no socket. -/
def World.init : World := ⟨none, ⟨[], []⟩⟩

/-- The expression `new WebSocket(url)`: a fresh socket, still connecting, without handler. -/
def newWebSocket (url : String) (net : Net) : Nat × Net :=
  (net.sockets.length,
   { sockets := net.sockets ++ [⟨url, .CONNECTING, none, 0⟩],
     trace := net.trace ++ [.construct net.sockets.length url] })

/-- The assignment `s.onopen = h`. -/
def setOnopen (s : Nat) (h : Handler) (net : Net) : Net :=
  match net.sockets[s]? with
  | none => net
  | some sk =>
    { sockets := net.sockets.set s { sk with onopen := some h },
      trace := net.trace ++ [.setOnopen s h] }

/-- The call `s.send(msg)`. The call is recorded; it throws when the socket is still
connecting or when the host says so. -/
def send (env : Env) (s : Nat) (msg : String) (net : Net) : Completion Unit × Net :=
  match net.sockets[s]? with
  | none => (.throw .typeError, net)
  | some sk =>
    let net1 : Net :=
      { sockets := net.sockets.set s { sk with sendCalls := sk.sendCalls + 1 },
        trace := net.trace ++ [.send s msg] }
    if sk.readyState = .CONNECTING ∨ env.sendThrows s sk.sendCalls = true then
      (.throw .sendError, net1)
    else
      (.normal (), net1)

/-- The call `s.close()`: never throws; a socket that is not yet closed starts closing. -/
def close (s : Nat) (net : Net) : Net :=
  match net.sockets[s]? with
  | none => net
  | some sk =>
    { sockets := net.sockets.set s
        { sk with readyState := if sk.readyState = .CLOSED then .CLOSED else .CLOSING },
      trace := net.trace ++ [.close s] }

/-- String conversion of an integral number, as done by `"message #" + i`. -/
def numberToString (v : Int) : String :=
  if v < 0 then "-" ++ Nat.repr (-v).toNat else Nat.repr v.toNat

/-- The loop `for (...; i<n; i++) { s.send("message #" + i) }` of `send_messages`,
from the test `i<n` on; `i` is the global. -/
def sendLoop (env : Env) (n : Int) (s : Nat) (w : World) : Completion Unit × World :=
  match hi : w.i with
  | none => (.throw .referenceError, w)
  | some i =>
    if hlt : i < n then
      match send env s ("message #" ++ numberToString i) w.net with
      | (.throw e, net1) => (.throw e, { w with net := net1 })
      | (.normal _, net1) => sendLoop env n s { i := some (i + 1), net := net1 }
    else
      (.normal (), w)
termination_by (n - w.i.getD n).toNat
decreasing_by
  simp only [hi, Option.getD_some]
  omega

/-- The body of the `onopen` handler installed by `send_messages` (lines 4 to 8). -/
def onopen_handler (env : Env) (n : Int) (s : Nat) (w : World) : Completion Unit × World :=
  match send env s "rate_test" w.net with
  | (.throw e, net1) => (.throw e, { w with net := net1 })
  | (.normal _, net1) =>
    match sendLoop env n s { i := some 0, net := net1 } with
    | (.throw e, w2) => (.throw e, w2)
    | (.normal _, w2) => (.normal (), { w2 with net := close s w2.net })

/-- The function `send_messages`: creates the socket and installs the handler. -/
def send_messages (n : Int) (w : World) : World :=
  let r := newWebSocket endpoint w.net
  { w with net := setOnopen r.1 (.burst n r.1) r.2 }

/-- The element assignment `a[idx] = v` on an array, `none` being a hole. -/
def arraySet (a : List (Option Nat)) (idx : Int) (v : Nat) : List (Option Nat) :=
  if idx < 0 then a
  else if idx.toNat < a.length then a.set idx.toNat (some v)
  else a ++ List.replicate (idx.toNat - a.length) none ++ [some v]

/-- The loop `for (...; i<n; i++) { connections[i] = new WebSocket(...) }` of
`make_connections`, from the test `i<n` on. -/
def connLoop (n : Int) (connections : List (Option Nat)) (w : World) :
    Completion (List (Option Nat)) × World :=
  match hi : w.i with
  | none => (.throw .referenceError, w)
  | some i =>
    if hlt : i < n then
      let r := newWebSocket endpoint w.net
      connLoop n (arraySet connections i r.1) { i := some (i + 1), net := r.2 }
    else
      (.normal connections, w)
termination_by (n - w.i.getD n).toNat
decreasing_by
  simp only [hi, Option.getD_some]
  omega

/-- The function `make_connections`. -/
def make_connections (n : Int) (w : World) : Completion (List (Option Nat)) × World :=
  connLoop n [] { w with i := some 0 }

/-- The host dispatches the `open` event on socket `s`: the socket becomes open and its
handler, if any, runs to completion. -/
def dispatchOpen (env : Env) (s : Nat) (w : World) : Completion Unit × World :=
  match w.net.sockets[s]? with
  | none => (.normal (), w)
  | some sk =>
    let net1 : Net :=
      { sockets := w.net.sockets.set s { sk with readyState := .OPEN },
        trace := w.net.trace ++ [.openEvent s] }
    match sk.onopen with
    | none => (.normal (), { w with net := net1 })
    | some (.burst n s') => onopen_handler env n s' { w with net := net1 }

/-! ## Observing a run -/

/-- What happens around the script: calls of its two functions and events of the host. -/
inductive Input where
  | call_send_messages (n : Int)
  | call_make_connections (n : Int)
  | open_event (s : Nat)
  | close_event (s : Nat)
  deriving DecidableEq, Repr

/-- The host reports that socket `s` is closed (or that connecting failed). The source
installs no handler for this, so only the `readyState` changes. -/
def markClosed (s : Nat) (w : World) : World :=
  match w.net.sockets[s]? with
  | none => w
  | some sk =>
    { w with net := { w.net with sockets := w.net.sockets.set s { sk with readyState := .CLOSED } } }

/-- One turn of the event loop. An exception that escapes a handler ends that turn only. -/
def step (env : Env) (inp : Input) (w : World) : World :=
  match inp with
  | .call_send_messages n => send_messages n w
  | .call_make_connections n => (make_connections n w).2
  | .open_event s => (dispatchOpen env s w).2
  | .close_event s => markClosed s w

/-- A sequence of turns. -/
def run (env : Env) (inputs : List Input) (w : World) : World :=
  inputs.foldl (fun w inp => step env inp w) w

/-- The part of the trace of `w1` that was added since `w`. -/
def added (w w1 : World) : List Action :=
  w1.net.trace.drop w.net.trace.length

/-- The messages passed to `send` on socket `s`, in call order. -/
def sentOn (s : Nat) : List Action → List String
  | [] => []
  | .send s1 msg :: rest => if s1 = s then msg :: sentOn s rest else sentOn s rest
  | _ :: rest => sentOn s rest

/-- Reading a string of decimal digits back as a number. -/
def readDecimal (cs : List Char) : Nat :=
  cs.foldl (fun acc c => 10 * acc + (c.toNat - '0'.toNat)) 0

/-- A whole burst: the call `send_messages(n)`, then the `open` event on the socket that
the call created (whose handle is the number of sockets that existed before). -/
def burstRun (env : Env) (n : Int) (w : World) : Completion Unit × World :=
  dispatchOpen env w.net.sockets.length (send_messages n w)

/-- The messages sent during a whole burst on its socket, in call order. -/
def burstMessages (env : Env) (n : Int) (w : World) : List String :=
  sentOn w.net.sockets.length (added w (burstRun env n w).2)

/-- The same sequence of turns when every turn starts with a counter `i` of its own (the
global `i` is deleted before each turn), so that no turn can see what another left in `i`. -/
def runIsolated (env : Env) (inputs : List Input) (w : World) : World :=
  inputs.foldl (fun w inp => step env inp { w with i := none }) w

/-- The handlers installed on the sockets, in socket order. -/
def handlers (net : Net) : List (Option Handler) :=
  net.sockets.map Socket.onopen

/-- Every installed handler is the closure over the very socket it is installed on. -/
def HandlersOwn (net : Net) : Prop :=
  ∀ k n s1, (handlers net)[k]? = some (some (Handler.burst n s1)) → s1 = k

/-- In the list of actions `l`, every send on socket `s` comes after an `open` event of `s`. -/
def OpenedBefore (s : Nat) (l : List Action) : Prop :=
  ∀ pre msg post, l = pre ++ Action.send s msg :: post → Action.openEvent s ∈ pre

/-! ## Unfolding the loops -/

theorem numberToString_natCast (t : Nat) : numberToString (t : Int) = Nat.repr t := by
  simp [numberToString]

theorem sendLoop_unfold (env : Env) (n : Int) (s : Nat) (w : World) :
    sendLoop env n s w =
      match w.i with
      | none => (.throw .referenceError, w)
      | some i =>
        if i < n then
          match send env s ("message #" ++ numberToString i) w.net with
          | (.throw e, net1) => (.throw e, { w with net := net1 })
          | (.normal _, net1) => sendLoop env n s { i := some (i + 1), net := net1 }
        else
          (.normal (), w) := by
  rw [sendLoop]
  split <;> simp_all

theorem connLoop_unfold (n : Int) (connections : List (Option Nat)) (w : World) :
    connLoop n connections w =
      match w.i with
      | none => (.throw .referenceError, w)
      | some i =>
        if i < n then
          connLoop n (arraySet connections i (newWebSocket endpoint w.net).1)
            { i := some (i + 1), net := (newWebSocket endpoint w.net).2 }
        else
          (.normal connections, w) := by
  rw [connLoop]
  split <;> simp_all

theorem lt_length_of_getElem? {α : Type} (l : List α) (s : Nat) (a : α) (h : l[s]? = some a) :
    s < l.length := by
  by_contra hc
  rw [List.getElem?_eq_none (by omega)] at h
  cases h

theorem set_same (l : List Socket) (s : Nat) (sk : Socket) (h : l[s]? = some sk) :
    l.set s sk = l := by
  have hs := lt_length_of_getElem? l s sk h
  have : l[s] = sk := by
    rw [List.getElem?_eq_getElem hs] at h
    exact Option.some.inj h
  apply List.ext_getElem (by simp)
  intro j h1 h2
  by_cases hj : s = j
  · subst hj; simp [this]
  · simp [List.getElem_set_ne hj]

/-- The loop with `m` iterations left, when none of its sends throws. -/
theorem sendLoop_ok (env : Env) (n : Int) (s : Nat) (m : Nat) :
    ∀ (i0 : Int) (net : Net) (sk : Socket), (n - i0).toNat = m →
      net.sockets[s]? = some sk → sk.readyState ≠ .CONNECTING →
      (∀ t, t < m → env.sendThrows s (sk.sendCalls + t) = false) →
      sendLoop env n s ⟨some i0, net⟩ =
        (.normal (),
          ⟨some (i0 + m),
            ⟨net.sockets.set s { sk with sendCalls := sk.sendCalls + m },
             net.trace ++ (List.range m).map
               (fun (t : Nat) => Action.send s ("message #" ++ numberToString (i0 + (t : Int))))⟩⟩) := by
  induction m with
  | zero =>
    intro i0 net sk hm hsk _ _
    rw [sendLoop_unfold]
    have : ¬ i0 < n := by omega
    have hset : net.sockets.set s { sk with sendCalls := sk.sendCalls } = net.sockets :=
      set_same _ _ _ hsk
    simp [this, hset]
  | succ m ih =>
    intro i0 net sk hm hsk hst hok
    rw [sendLoop_unfold]
    have hlt : i0 < n := by omega
    have h0 := hok 0 (by omega)
    have hs := lt_length_of_getElem? _ _ _ hsk
    simp only [Nat.add_zero] at h0
    simp only [hlt, if_true, send, hsk, hst, false_or, h0, Bool.false_eq_true, if_false]
    rw [ih (i0 + 1) _ { sk with sendCalls := sk.sendCalls + 1 } (by omega)
      (by simp [List.getElem?_set, hs]) hst
      (by
        intro t ht
        have := hok (t + 1) (by omega)
        simpa [Nat.add_assoc, Nat.add_comm 1 t] using this)]
    simp only [List.set_set, List.append_assoc, List.singleton_append, Prod.mk.injEq, true_and,
      World.mk.injEq, Net.mk.injEq]
    refine ⟨by push_cast; ring_nf, ?_, ?_⟩
    · congr 2
      omega
    · rw [List.range_succ_eq_map]
      simp only [List.map_cons, List.map_map, Nat.cast_zero, add_zero, List.cons.injEq, true_and]
      congr 2
      apply List.map_congr_left
      intro t _
      simp only [Function.comp, Nat.cast_succ]
      congr 3
      ring

/-- The loop when the send of iteration `j` is the first one to throw. -/
theorem sendLoop_fail (env : Env) (n : Int) (s : Nat) (j : Nat) :
    ∀ (i0 : Int) (net : Net) (sk : Socket), i0 + j < n →
      net.sockets[s]? = some sk → sk.readyState ≠ .CONNECTING →
      (∀ t, t < j → env.sendThrows s (sk.sendCalls + t) = false) →
      env.sendThrows s (sk.sendCalls + j) = true →
      sendLoop env n s ⟨some i0, net⟩ =
        (.throw .sendError,
          ⟨some (i0 + j),
            ⟨net.sockets.set s { sk with sendCalls := sk.sendCalls + (j + 1) },
             net.trace ++ (List.range (j + 1)).map
               (fun (t : Nat) => Action.send s ("message #" ++ numberToString (i0 + (t : Int))))⟩⟩) := by
  induction j with
  | zero =>
    intro i0 net sk hlt hsk hst _ hbad
    rw [sendLoop_unfold]
    have hlt0 : i0 < n := by simpa using hlt
    simp only [Nat.add_zero] at hbad
    simp [hlt0, send, hsk, hst, hbad, List.range_succ]
  | succ j ih =>
    intro i0 net sk hlt hsk hst hok hbad
    rw [sendLoop_unfold]
    have hlt0 : i0 < n := by push_cast at hlt; omega
    have h0 := hok 0 (by omega)
    have hs := lt_length_of_getElem? _ _ _ hsk
    simp only [Nat.add_zero] at h0
    simp only [hlt0, if_true, send, hsk, hst, false_or, h0, Bool.false_eq_true, if_false]
    rw [ih (i0 + 1) _ { sk with sendCalls := sk.sendCalls + 1 } (by push_cast at hlt; omega)
      (by simp [List.getElem?_set, hs]) hst
      (by
        intro t ht
        have := hok (t + 1) (by omega)
        simpa [Nat.add_assoc, Nat.add_comm 1 t] using this)
      (by simpa [Nat.add_assoc, Nat.add_comm 1 j] using hbad)]
    simp only [List.set_set, List.append_assoc, List.singleton_append, Prod.mk.injEq, true_and,
      World.mk.injEq, Net.mk.injEq]
    refine ⟨by push_cast; ring_nf, ?_, ?_⟩
    · congr 2
      omega
    · rw [List.range_succ_eq_map (j + 1)]
      simp only [List.map_cons, List.map_map, Nat.cast_zero, add_zero, List.cons.injEq, true_and]
      congr 2
      apply List.map_congr_left
      intro t _
      simp only [Function.comp, Nat.cast_succ]
      congr 3
      ring

/-- What `send_messages` leaves behind: one more socket, connecting, with the handler. -/
theorem send_messages_eq (n : Int) (w : World) :
    send_messages n w =
      ⟨w.i,
        ⟨w.net.sockets ++
            [⟨endpoint, .CONNECTING, some (.burst n w.net.sockets.length), 0⟩],
          w.net.trace ++ [.construct w.net.sockets.length endpoint,
            .setOnopen w.net.sockets.length (.burst n w.net.sockets.length)]⟩⟩ := by
  simp [send_messages, newWebSocket, setOnopen]

/-- The `open` event on the socket of `send_messages` runs the handler on the opened socket. -/
theorem dispatchOpen_send_messages (env : Env) (n : Int) (w : World) :
    dispatchOpen env w.net.sockets.length (send_messages n w) =
      onopen_handler env n w.net.sockets.length
        ⟨w.i,
          ⟨w.net.sockets ++
              [⟨endpoint, .OPEN, some (.burst n w.net.sockets.length), 0⟩],
            w.net.trace ++ [.construct w.net.sockets.length endpoint,
              .setOnopen w.net.sockets.length (.burst n w.net.sockets.length),
              .openEvent w.net.sockets.length]⟩⟩ := by
  rw [send_messages_eq]
  simp [dispatchOpen]

/-! ## The handler -/

/-- The numbered messages `"message #0"`, ..., `"message #(m-1)"` as `send` actions. -/
theorem numbered_eq (s m : Nat) :
    (List.range m).map
        (fun (t : Nat) => Action.send s ("message #" ++ numberToString ((0 : Int) + (t : Int)))) =
      (List.range m).map (fun (t : Nat) => Action.send s ("message #" ++ Nat.repr t)) := by
  apply List.map_congr_left
  intro t _
  rw [zero_add, numberToString_natCast]

/-- The handler when no send throws. -/
theorem onopen_handler_ok (env : Env) (n : Int) (s : Nat) (w : World) (sk : Socket)
    (hsk : w.net.sockets[s]? = some sk) (hst : sk.readyState ≠ .CONNECTING)
    (hok : ∀ t, t ≤ n.toNat → env.sendThrows s (sk.sendCalls + t) = false) :
    onopen_handler env n s w =
      (.normal (),
        ⟨some (n.toNat : Int),
          ⟨w.net.sockets.set s
              { sk with
                sendCalls := sk.sendCalls + 1 + n.toNat
                readyState := if sk.readyState = .CLOSED then .CLOSED else .CLOSING },
            w.net.trace ++ (Action.send s "rate_test" ::
              (List.range n.toNat).map (fun (t : Nat) => Action.send s ("message #" ++ Nat.repr t)))
              ++ [Action.close s]⟩⟩) := by
  have hs := lt_length_of_getElem? _ _ _ hsk
  have h0 := hok 0 (by omega)
  simp only [Nat.add_zero] at h0
  unfold onopen_handler
  simp only [send, hsk, hst, false_or, h0, Bool.false_eq_true, if_false]
  rw [sendLoop_ok env n s n.toNat 0 _ { sk with sendCalls := sk.sendCalls + 1 } (by simp)
    (by simp [List.getElem?_set, hs]) hst
    (by intro t ht; have := hok (t + 1) (by omega); simpa [Nat.add_assoc, Nat.add_comm 1 t] using this)]
  rw [numbered_eq]
  simp [close, List.getElem?_set, hs]

/-- The handler when the send at position `j` (0 is the marker) is the first to throw. -/
theorem onopen_handler_fail (env : Env) (n : Int) (s : Nat) (w : World) (sk : Socket) (j : Nat)
    (hsk : w.net.sockets[s]? = some sk) (hst : sk.readyState ≠ .CONNECTING)
    (hj : j ≤ n.toNat)
    (hok : ∀ t, t < j → env.sendThrows s (sk.sendCalls + t) = false)
    (hbad : env.sendThrows s (sk.sendCalls + j) = true) :
    onopen_handler env n s w =
      (.throw .sendError,
        ⟨if j = 0 then w.i else some ((j : Int) - 1),
          ⟨w.net.sockets.set s { sk with sendCalls := sk.sendCalls + (j + 1) },
            w.net.trace ++ (Action.send s "rate_test" ::
              (List.range j).map
                (fun (t : Nat) => Action.send s ("message #" ++ Nat.repr t)))⟩⟩) := by
  have hs := lt_length_of_getElem? _ _ _ hsk
  unfold onopen_handler
  cases j with
  | zero =>
    simp only [Nat.add_zero] at hbad
    simp [send, hsk, hst, hbad]
  | succ j =>
    have h0 := hok 0 (by omega)
    simp only [Nat.add_zero] at h0
    simp only [send, hsk, hst, false_or, h0, Bool.false_eq_true, if_false]
    rw [sendLoop_fail env n s j 0 _ { sk with sendCalls := sk.sendCalls + 1 } (by omega)
      (by simp [List.getElem?_set, hs]) hst
      (by
        intro t ht
        have := hok (t + 1) (by omega)
        simpa [Nat.add_assoc, Nat.add_comm 1 t] using this)
      (by simpa [Nat.add_assoc, Nat.add_comm 1 j] using hbad)]
    rw [numbered_eq]
    have e : sk.sendCalls + 1 + (j + 1) = sk.sendCalls + (j + 1 + 1) := by omega
    simp [e]

/-! ## A whole burst: `send_messages`, then the `open` event -/

theorem added_append (w : World) (v : Option Int) (l : List Socket) (t : List Action) :
    added w ⟨v, ⟨l, w.net.trace ++ t⟩⟩ = t := by
  simp [added]

/-- The burst when no send throws. -/
theorem burst_ok (env : Env) (n : Int) (w : World)
    (hok : ∀ t, t ≤ n.toNat → env.sendThrows w.net.sockets.length t = false) :
    dispatchOpen env w.net.sockets.length (send_messages n w) =
      (.normal (),
        ⟨some (n.toNat : Int),
          ⟨w.net.sockets ++
              [⟨endpoint, .CLOSING, some (.burst n w.net.sockets.length), n.toNat + 1⟩],
            w.net.trace ++ (Action.construct w.net.sockets.length endpoint ::
              Action.setOnopen w.net.sockets.length (.burst n w.net.sockets.length) ::
              Action.openEvent w.net.sockets.length ::
              Action.send w.net.sockets.length "rate_test" ::
              ((List.range n.toNat).map
                (fun (t : Nat) => Action.send w.net.sockets.length ("message #" ++ Nat.repr t))
              ++ [Action.close w.net.sockets.length]))⟩⟩) := by
  rw [dispatchOpen_send_messages,
    onopen_handler_ok env n _ _ ⟨endpoint, .OPEN, some (.burst n w.net.sockets.length), 0⟩
      (by simp) (by simp) (by simpa using hok)]
  simp [Nat.add_comm 1]

/-- The burst when the send at position `j` (0 is the marker) is the first to throw. -/
theorem burst_fail (env : Env) (n : Int) (w : World) (j : Nat) (hj : j ≤ n.toNat)
    (hok : ∀ t, t < j → env.sendThrows w.net.sockets.length t = false)
    (hbad : env.sendThrows w.net.sockets.length j = true) :
    dispatchOpen env w.net.sockets.length (send_messages n w) =
      (.throw .sendError,
        ⟨if j = 0 then w.i else some ((j : Int) - 1),
          ⟨w.net.sockets ++
              [⟨endpoint, .OPEN, some (.burst n w.net.sockets.length), j + 1⟩],
            w.net.trace ++ (Action.construct w.net.sockets.length endpoint ::
              Action.setOnopen w.net.sockets.length (.burst n w.net.sockets.length) ::
              Action.openEvent w.net.sockets.length ::
              Action.send w.net.sockets.length "rate_test" ::
              (List.range j).map
                (fun (t : Nat) => Action.send w.net.sockets.length ("message #" ++ Nat.repr t)))⟩⟩) := by
  rw [dispatchOpen_send_messages,
    onopen_handler_fail env n _ _ ⟨endpoint, .OPEN, some (.burst n w.net.sockets.length), 0⟩ j
      (by simp) (by simp) hj (by simpa using hok) (by simpa using hbad)]
  simp

theorem added_send_messages (n : Int) (w : World) (v : Option Int) (l : List Socket)
    (t : List Action) :
    added (send_messages n w)
        ⟨v, ⟨l, w.net.trace ++ (Action.construct w.net.sockets.length endpoint ::
          Action.setOnopen w.net.sockets.length (.burst n w.net.sockets.length) :: t)⟩⟩ = t := by
  simp [added, send_messages_eq]

/-! ## Reading the trace -/

theorem sentOn_append (s : Nat) (l1 l2 : List Action) :
    sentOn s (l1 ++ l2) = sentOn s l1 ++ sentOn s l2 := by
  induction l1 with
  | nil => rfl
  | cons a l ih =>
    rw [List.cons_append]
    cases a with
    | send s1 msg =>
      simp only [sentOn, ih]
      split <;> simp
    | construct _ _ => simp only [sentOn, ih]
    | setOnopen _ _ => simp only [sentOn, ih]
    | close _ => simp only [sentOn, ih]
    | openEvent _ => simp only [sentOn, ih]

theorem sentOn_map_send (s : Nat) (f : Nat → String) (l : List Nat) :
    sentOn s (l.map (fun t => Action.send s (f t))) = l.map f := by
  induction l with
  | nil => rfl
  | cons a l ih => simp [sentOn, ih]

/-- The actions added by a burst in which no send throws. -/
theorem added_burst_ok (env : Env) (n : Nat) (w : World)
    (hok : ∀ t, t ≤ n → env.sendThrows w.net.sockets.length t = false) :
    added w (burstRun env n w).2 =
      Action.construct w.net.sockets.length endpoint ::
      Action.setOnopen w.net.sockets.length (.burst n w.net.sockets.length) ::
      Action.openEvent w.net.sockets.length ::
      Action.send w.net.sockets.length "rate_test" ::
      ((List.range n).map
        (fun (t : Nat) => Action.send w.net.sockets.length ("message #" ++ Nat.repr t))
      ++ [Action.close w.net.sockets.length]) := by
  rw [burstRun, burst_ok env n w (by simpa using hok)]
  simp [added_append]

/-- The messages of a burst in which no send throws. -/
theorem burstMessages_ok (env : Env) (n : Nat) (w : World)
    (hok : ∀ t, t ≤ n → env.sendThrows w.net.sockets.length t = false) :
    burstMessages env n w =
      "rate_test" :: (List.range n).map (fun (t : Nat) => "message #" ++ Nat.repr t) := by
  rw [burstMessages, added_burst_ok env n w hok]
  simp only [sentOn, if_true]
  rw [sentOn_append, sentOn_map_send]
  simp [sentOn]

/-- The actions added by a burst in which the send at position `j` is the first to throw. -/
theorem added_burst_fail (env : Env) (n : Nat) (w : World) (j : Nat) (hj : j ≤ n)
    (hok : ∀ t, t < j → env.sendThrows w.net.sockets.length t = false)
    (hbad : env.sendThrows w.net.sockets.length j = true) :
    added w (burstRun env n w).2 =
      Action.construct w.net.sockets.length endpoint ::
      Action.setOnopen w.net.sockets.length (.burst n w.net.sockets.length) ::
      Action.openEvent w.net.sockets.length ::
      Action.send w.net.sockets.length "rate_test" ::
      (List.range j).map
        (fun (t : Nat) => Action.send w.net.sockets.length ("message #" ++ Nat.repr t)) := by
  rw [burstRun, burst_fail env n w j (by simpa using hj) hok hbad]
  simp [added_append]

theorem close_not_mem_sends (s : Nat) (f : Nat → String) (l : List Nat) :
    Action.close s ∉ l.map (fun t => Action.send s (f t)) := by
  simp

/-- If an action does not occur in `l`, its only occurrence in `l ++ [c]` is the last. -/
theorem nothing_after_last {α : Type} (l pre post : List α) (c : α) (hc : c ∉ l)
    (h : l ++ [c] = pre ++ c :: post) : post = [] := by
  rcases List.append_eq_append_iff.mp h with ⟨a, h1, h2⟩ | ⟨b, h1, h2⟩
  · cases a with
    | nil => simpa using h2
    | cons x a =>
      have := congrArg List.length h2
      simp at this
  · cases b with
    | nil => simpa using h2.symm
    | cons x b =>
      simp only [List.cons_append, List.cons.injEq] at h2
      exfalso
      apply hc
      rw [h1, ← h2.1]
      simp

/-! ## The connection loop -/

/-- Assigning at the index equal to the length appends. -/
theorem arraySet_length (a : List (Option Nat)) (idx : Int) (v : Nat) (h0 : 0 ≤ idx)
    (h : a.length = idx.toNat) : arraySet a idx v = a ++ [some v] := by
  have h1 : ¬ idx < 0 := by omega
  have h2 : ¬ idx.toNat < a.length := by omega
  simp [arraySet, h1, h2, h]

theorem connLoop_spec (n : Int) (m : Nat) :
    ∀ (i0 : Int) (connections : List (Option Nat)) (net : Net), (n - i0).toNat = m → 0 ≤ i0 →
      connections.length = i0.toNat →
      connLoop n connections ⟨some i0, net⟩ =
        (.normal (connections ++
            (List.range m).map (fun (t : Nat) => some (net.sockets.length + t))),
          ⟨some (i0 + m),
            ⟨net.sockets ++ List.replicate m ⟨endpoint, .CONNECTING, none, 0⟩,
             net.trace ++ (List.range m).map
               (fun (t : Nat) => Action.construct (net.sockets.length + t) endpoint)⟩⟩) := by
  induction m with
  | zero =>
    intro i0 connections net hm _ _
    rw [connLoop_unfold]
    have : ¬ i0 < n := by omega
    simp [this]
  | succ m ih =>
    intro i0 connections net hm h0 hlen
    rw [connLoop_unfold]
    have hlt : i0 < n := by omega
    simp only [hlt, if_true, newWebSocket]
    rw [arraySet_length _ _ _ h0 hlen,
      ih (i0 + 1) _ _ (by omega) (by omega) (by simp only [List.length_append, List.length_singleton, hlen]; omega)]
    simp only [List.length_append, List.length_singleton, List.append_assoc,
      List.singleton_append, Prod.mk.injEq, Completion.normal.injEq, World.mk.injEq,
      Net.mk.injEq]
    refine ⟨?_, by push_cast; ring_nf, ?_, ?_⟩
    · rw [List.range_succ_eq_map]
      simp only [List.map_cons, List.map_map, Nat.add_zero]
      congr 2
      apply List.map_congr_left
      intro t _
      simp only [Function.comp]
      congr 1
      omega
    · rw [List.replicate_succ]
    · rw [List.range_succ_eq_map]
      simp only [List.map_cons, List.map_map, Nat.add_zero]
      congr 2
      apply List.map_congr_left
      intro t _
      simp only [Function.comp]
      congr 1
      omega

/-- What `make_connections` does, for every count. -/
theorem make_connections_eq (n : Int) (w : World) :
    make_connections n w =
      (.normal ((List.range n.toNat).map (fun (t : Nat) => some (w.net.sockets.length + t))),
        ⟨some (n.toNat : Int),
          ⟨w.net.sockets ++ List.replicate n.toNat ⟨endpoint, .CONNECTING, none, 0⟩,
           w.net.trace ++ (List.range n.toNat).map
             (fun (t : Nat) => Action.construct (w.net.sockets.length + t) endpoint)⟩⟩) := by
  rw [make_connections, connLoop_spec n n.toNat 0 [] w.net (by simp) (by simp) (by simp)]
  simp

/-! ## The claims about a burst -/

/-- C1. For every count `n`, when the connection opened by `send_messages(n)` fires its open
event (and no send throws), the handler completes normally and what happens on the connection
since the call is exactly: the open event, the sends of `"rate_test"`, `"message #0"`, ...,
`"message #(n-1)"` in this order, then the close. For `n = 3` the sends are `"rate_test"`,
`"message #0"`, `"message #1"`, `"message #2"`, followed by the close. -/
theorem send_messages_open_sequence (env : Env) (w : World) (n : Nat)
    (hok : ∀ t, t ≤ n → env.sendThrows w.net.sockets.length t = false) :
    (burstRun env n w).1 = .normal () ∧
    added (send_messages n w) (burstRun env n w).2 =
      Action.openEvent w.net.sockets.length ::
      Action.send w.net.sockets.length "rate_test" ::
      ((List.range n).map
        (fun (k : Nat) => Action.send w.net.sockets.length ("message #" ++ Nat.repr k))
      ++ [Action.close w.net.sockets.length]) ∧
    (n = 3 →
      added (send_messages n w) (burstRun env n w).2 =
        [Action.openEvent w.net.sockets.length,
         Action.send w.net.sockets.length "rate_test",
         Action.send w.net.sockets.length "message #0",
         Action.send w.net.sockets.length "message #1",
         Action.send w.net.sockets.length "message #2",
         Action.close w.net.sockets.length]) := by
  have h := burst_ok env n w (by simpa using hok)
  rw [burstRun, h]
  simp only [Int.toNat_ofNat, added_send_messages, true_and]
  intro h3
  subst h3
  rfl

/-- Witness for C1: three messages on the first socket of a reliable host. -/
theorem send_messages_open_sequence_witness :
    (burstRun Env.reliable (3 : Nat) World.init).1 = .normal () ∧
    added (send_messages (3 : Nat) World.init) (burstRun Env.reliable (3 : Nat) World.init).2 =
      [Action.openEvent 0, Action.send 0 "rate_test", Action.send 0 "message #0",
       Action.send 0 "message #1", Action.send 0 "message #2", Action.close 0] :=
  ⟨(send_messages_open_sequence Env.reliable World.init 3 (fun _ _ => rfl)).1,
   (send_messages_open_sequence Env.reliable World.init 3 (fun _ _ => rfl)).2.2 rfl⟩

/-- C2, as stated, fails: for count 0 on a reliable host the one message sent is
`"rate_test"`, which is not `"rat e_test"`. -/
theorem message_zero_is_not_rat_e_test :
    (burstMessages Env.reliable (0 : Nat) World.init)[0]? = some "rate_test" ∧
    (burstMessages Env.reliable (0 : Nat) World.init)[0]? ≠ some "rat e_test" := by
  rw [burstMessages_ok Env.reliable 0 World.init (fun _ _ => rfl)]
  decide

/-- C2, amended. For every count, a burst in which no send throws sends exactly `count + 1`
messages, message 0 being `"rate_test"` and message `k`, for `1 ≤ k ≤ count`, being
`"message #"` followed by `k - 1`. -/
theorem send_messages_count_and_content (env : Env) (w : World) (count : Nat)
    (hok : ∀ t, t ≤ count → env.sendThrows w.net.sockets.length t = false) :
    (burstMessages env count w).length = count + 1 ∧
    (burstMessages env count w)[0]? = some "rate_test" ∧
    ∀ k, 1 ≤ k → k ≤ count →
      (burstMessages env count w)[k]? = some ("message #" ++ Nat.repr (k - 1)) := by
  rw [burstMessages_ok env count w hok]
  refine ⟨by simp, by simp, ?_⟩
  intro k h1 h2
  obtain ⟨k, rfl⟩ : ∃ k0, k = k0 + 1 := ⟨k - 1, by omega⟩
  simp [List.getElem?_range, show k < count by omega]

/-- Witness for C2 (amended): two numbered messages on a reliable host. -/
theorem send_messages_count_and_content_witness :
    (burstMessages Env.reliable (2 : Nat) World.init).length = 2 + 1 ∧
    (burstMessages Env.reliable (2 : Nat) World.init)[0]? = some "rate_test" ∧
    (burstMessages Env.reliable (2 : Nat) World.init)[2]? = some ("message #" ++ Nat.repr 1) :=
  have h := send_messages_count_and_content Env.reliable World.init 2 (fun _ _ => rfl)
  ⟨h.1, h.2.1, h.2.2 2 (by decide) (by decide)⟩

/-- C4. For every count `n`, in a burst in which every send succeeds, the connection is
closed exactly once, the close is the last action of the run, and no send on the connection
comes after the close. -/
theorem send_messages_closes_once_at_end (env : Env) (w : World) (n : Nat)
    (hok : ∀ t, t ≤ n → env.sendThrows w.net.sockets.length t = false) :
    (added w (burstRun env n w).2).count (Action.close w.net.sockets.length) = 1 ∧
    (added w (burstRun env n w).2).getLast? = some (Action.close w.net.sockets.length) ∧
    ∀ pre post, added w (burstRun env n w).2 = pre ++ Action.close w.net.sockets.length :: post →
      ∀ msg, Action.send w.net.sockets.length msg ∉ post := by
  rw [added_burst_ok env n w hok]
  have hsplit :
      Action.construct w.net.sockets.length endpoint ::
      Action.setOnopen w.net.sockets.length (.burst n w.net.sockets.length) ::
      Action.openEvent w.net.sockets.length ::
      Action.send w.net.sockets.length "rate_test" ::
      ((List.range n).map
        (fun (t : Nat) => Action.send w.net.sockets.length ("message #" ++ Nat.repr t))
      ++ [Action.close w.net.sockets.length]) =
      (Action.construct w.net.sockets.length endpoint ::
      Action.setOnopen w.net.sockets.length (.burst n w.net.sockets.length) ::
      Action.openEvent w.net.sockets.length ::
      Action.send w.net.sockets.length "rate_test" ::
      (List.range n).map
        (fun (t : Nat) => Action.send w.net.sockets.length ("message #" ++ Nat.repr t)))
      ++ [Action.close w.net.sockets.length] := by simp
  have hnot : Action.close w.net.sockets.length ∉
      (Action.construct w.net.sockets.length endpoint ::
      Action.setOnopen w.net.sockets.length (.burst n w.net.sockets.length) ::
      Action.openEvent w.net.sockets.length ::
      Action.send w.net.sockets.length "rate_test" ::
      (List.range n).map
        (fun (t : Nat) => Action.send w.net.sockets.length ("message #" ++ Nat.repr t))) := by
    simp
  rw [hsplit]
  refine ⟨?_, List.getLast?_concat _, ?_⟩
  · rw [List.count_append, List.count_eq_zero_of_not_mem hnot]
    simp
  · intro pre post h msg
    rw [nothing_after_last _ pre post _ hnot h]
    simp

/-- Witness for C4: a burst of two messages on a reliable host. -/
theorem send_messages_closes_once_at_end_witness :
    (added World.init (burstRun Env.reliable (2 : Nat) World.init).2).count (Action.close 0) = 1 ∧
    (added World.init (burstRun Env.reliable (2 : Nat) World.init).2).getLast? =
      some (Action.close 0) :=
  have h := send_messages_closes_once_at_end Env.reliable World.init 2 (fun _ _ => rfl)
  ⟨h.1, h.2.1⟩

/-- C5, as stated, fails: on a host where the second send of the burst throws, the handler of
`send_messages(2)` stops with the send error after `"message #0"`, but the connection is not
closed: `close` is never called and the socket stays open. -/
theorem failed_send_leaves_connection_unclosed :
    (burstRun ⟨fun _ j => decide (j = 1)⟩ (2 : Nat) World.init).1 = .throw .sendError ∧
    added World.init (burstRun ⟨fun _ j => decide (j = 1)⟩ (2 : Nat) World.init).2 =
      [Action.construct 0 endpoint, Action.setOnopen 0 (.burst 2 0), Action.openEvent 0,
       Action.send 0 "rate_test", Action.send 0 "message #0"] ∧
    (added World.init (burstRun ⟨fun _ j => decide (j = 1)⟩ (2 : Nat) World.init).2).count
      (Action.close 0) = 0 ∧
    (burstRun ⟨fun _ j => decide (j = 1)⟩ (2 : Nat) World.init).2.net.sockets =
      [⟨endpoint, .OPEN, some (.burst 2 0), 2⟩] := by
  have h := burst_fail ⟨fun _ j => decide (j = 1)⟩ (2 : Nat) World.init 1 (by decide)
    (by intro t ht; have : t = 0 := by omega
        subst this; rfl) rfl
  rw [burstRun, h]
  refine ⟨rfl, ?_, ?_, rfl⟩
  · rfl
  · rfl

/-- C5, amended. For every count `n` and every position `j ≤ n` (0 is the marker, `j ≥ 1` the
numbered message `j - 1`) at which a send of the handler throws, the handler ends with that
send error, the failing send is the last action (no further send is attempted), and the
handler does not close the connection: `close` is not called and the socket stays open. -/
theorem send_failure_stops_handler (env : Env) (w : World) (n j : Nat) (hj : j ≤ n)
    (hprev : ∀ t, t < j → env.sendThrows w.net.sockets.length t = false)
    (hbad : env.sendThrows w.net.sockets.length j = true) :
    (burstRun env n w).1 = .throw .sendError ∧
    burstMessages env n w =
      "rate_test" :: (List.range j).map (fun (t : Nat) => "message #" ++ Nat.repr t) ∧
    (added w (burstRun env n w).2).getLast? =
      some (Action.send w.net.sockets.length
        (if j = 0 then "rate_test" else "message #" ++ Nat.repr (j - 1))) ∧
    (added w (burstRun env n w).2).count (Action.close w.net.sockets.length) = 0 ∧
    (burstRun env n w).2.net.sockets[w.net.sockets.length]? =
      some ⟨endpoint, .OPEN, some (.burst n w.net.sockets.length), j + 1⟩ := by
  have hadd := added_burst_fail env n w j hj hprev hbad
  have hrun := burst_fail env n w j (by simpa using hj) hprev hbad
  refine ⟨?_, ?_, ?_, ?_, ?_⟩
  · rw [burstRun, hrun]
  · rw [burstMessages, hadd]
    simp only [sentOn, if_true]
    rw [sentOn_map_send]
  · rw [hadd]
    cases j with
    | zero => simp
    | succ j =>
      rw [List.range_succ, List.map_append]
      have e : ∀ (a b c d : Action) (l : List Action) (x : Action),
          a :: b :: c :: d :: (l ++ [x]) = (a :: b :: c :: d :: l) ++ [x] := by
        intros; simp
      rw [List.map_singleton, e, List.getLast?_concat]
      simp
  · rw [hadd]
    apply List.count_eq_zero_of_not_mem
    simp
  · rw [burstRun, hrun]
    simp

/-- Witness for C5 (amended): the first numbered send throws in a burst of two. -/
theorem send_failure_stops_handler_witness :
    (burstRun ⟨fun _ j => decide (j = 1)⟩ (2 : Nat) World.init).1 = .throw .sendError ∧
    burstMessages ⟨fun _ j => decide (j = 1)⟩ (2 : Nat) World.init =
      "rate_test" :: (List.range 1).map (fun (t : Nat) => "message #" ++ Nat.repr t) :=
  have h := send_failure_stops_handler ⟨fun _ j => decide (j = 1)⟩ World.init 2 1 (by decide)
    (by intro t ht; have : t = 0 := by omega
        subst this; rfl) rfl
  ⟨h.1, h.2.1⟩

/-! ## The claims about `make_connections` and the boundary -/

/-- C3. For every count `n`, `make_connections(n)` returns a sequence of exactly `n` handles;
the handle at index `k < n` is the `k`-th connection created by the call; and every handle
targets the endpoint `"ws://127.0.0.1:1234/connect"`. -/
theorem make_connections_returns_handles (w : World) (n : Nat) :
    ∃ handles : List (Option Nat),
      (make_connections n w).1 = .normal handles ∧ handles.length = n ∧
      ∀ k, k < n →
        handles[k]? = some (some (w.net.sockets.length + k)) ∧
        (added w (make_connections n w).2)[k]? =
          some (Action.construct (w.net.sockets.length + k) "ws://127.0.0.1:1234/connect") ∧
        ((make_connections n w).2.net.sockets[w.net.sockets.length + k]?).map Socket.url =
          some "ws://127.0.0.1:1234/connect" := by
  rw [make_connections_eq]
  refine ⟨_, rfl, by simp, ?_⟩
  intro k hk
  refine ⟨by simp [List.getElem?_range, hk],
    by simp [added_append, List.getElem?_range, hk, endpoint], ?_⟩
  rw [List.getElem?_append_right (by omega)]
  simp [List.getElem?_replicate, hk, endpoint]

/-- Witness for C3: five connections from the initial state, looking at the last handle. -/
theorem make_connections_returns_handles_witness :
    ∃ handles : List (Option Nat),
      (make_connections (5 : Nat) World.init).1 = .normal handles ∧ handles.length = 5 ∧
      handles[4]? = some (some 4) :=
  match make_connections_returns_handles World.init 5 with
  | ⟨handles, h1, h2, h3⟩ =>
    ⟨handles, h1, h2, by simpa [World.init] using (h3 4 (by decide)).1⟩

/-- C7. For every count `n`, `make_connections(n)` performs exactly one connection attempt per
returned handle and nothing else: the actions of the call are the `n` constructions (none for
`n ≤ 0`), so no message is sent, nothing is closed and no handler is installed; the sockets
that existed are untouched and the new ones are connecting, without handler. -/
theorem make_connections_only_connects (w : World) (n : Int) :
    added w (make_connections n w).2 =
      (List.range n.toNat).map
        (fun (k : Nat) => Action.construct (w.net.sockets.length + k) endpoint) ∧
    (make_connections n w).2.net.sockets =
      w.net.sockets ++ List.replicate n.toNat ⟨endpoint, .CONNECTING, none, 0⟩ ∧
    (make_connections n w).1 =
      .normal ((List.range n.toNat).map (fun (k : Nat) => some (w.net.sockets.length + k))) ∧
    (added w (make_connections n w).2).length = n.toNat := by
  rw [make_connections_eq]
  simp [added_append]

/-- C9. With count 0, the handler of `send_messages(0)` sends exactly one message, the marker
`"rate_test"`, and then closes the connection; and `make_connections(0)` returns an empty
sequence and creates no connection. -/
theorem zero_count_boundary (env : Env) (w : World)
    (h0 : env.sendThrows w.net.sockets.length 0 = false) :
    added (send_messages 0 w) (burstRun env 0 w).2 =
      [Action.openEvent w.net.sockets.length, Action.send w.net.sockets.length "rate_test",
       Action.close w.net.sockets.length] ∧
    burstMessages env 0 w = ["rate_test"] ∧
    (make_connections 0 w).1 = .normal [] ∧
    (make_connections 0 w).2.net = w.net := by
  have hok : ∀ t, t ≤ 0 → env.sendThrows w.net.sockets.length t = false := by
    intro t ht
    have : t = 0 := by omega
    subst this
    exact h0
  have hb := burst_ok env 0 w (by simpa using hok)
  have hm := burstMessages_ok env 0 w hok
  simp only [Nat.cast_zero, List.range_zero, List.map_nil] at hm
  refine ⟨?_, hm, ?_, ?_⟩
  · rw [burstRun, hb]
    simp [added_send_messages]
  · rw [make_connections_eq]
    simp
  · rw [make_connections_eq]
    simp

/-- Witness for C9: the initial state on a reliable host. -/
theorem zero_count_boundary_witness :
    burstMessages Env.reliable 0 World.init = ["rate_test"] ∧
    (make_connections 0 World.init).1 = .normal [] :=
  have h := zero_count_boundary Env.reliable World.init rfl
  ⟨h.2.1, h.2.2.1⟩

/-! ## The shared global counter -/

/-- When the send loop completes normally, the counter has reached the bound. -/
theorem sendLoop_normal_i (env : Env) (n : Int) (s : Nat) (m : Nat) :
    ∀ (i0 : Int) (net : Net), (n - i0).toNat = m →
      (sendLoop env n s ⟨some i0, net⟩).1 = .normal () →
      (sendLoop env n s ⟨some i0, net⟩).2.i = some (max n i0) := by
  induction m with
  | zero =>
    intro i0 net hm _
    rw [sendLoop_unfold]
    have : ¬ i0 < n := by omega
    simp only [this, if_false]
    congr 1
    omega
  | succ m ih =>
    intro i0 net hm
    rw [sendLoop_unfold]
    have hlt : i0 < n := by omega
    simp only [hlt, if_true]
    rcases hsend : send env s ("message #" ++ numberToString i0) net with ⟨c, net1⟩
    cases c with
    | throw e => simp
    | normal u =>
      simp only []
      intro h
      rw [ih (i0 + 1) net1 (by omega) h]
      congr 1
      omega

/-- The handler does the same on the host whatever the counter holds on entry. -/
theorem onopen_handler_entry (env : Env) (n : Int) (s : Nat) (net : Net) (v v1 : Option Int) :
    (onopen_handler env n s ⟨v, net⟩).1 = (onopen_handler env n s ⟨v1, net⟩).1 ∧
    (onopen_handler env n s ⟨v, net⟩).2.net = (onopen_handler env n s ⟨v1, net⟩).2.net := by
  unfold onopen_handler
  rcases hsend : send env s "rate_test" net with ⟨c, net1⟩
  cases c with
  | throw e => simp
  | normal u => simp

theorem onopen_handler_normal_i (env : Env) (n : Int) (s : Nat) (w : World)
    (h : (onopen_handler env n s w).1 = .normal ()) :
    (onopen_handler env n s w).2.i = some (max n 0) := by
  unfold onopen_handler at h ⊢
  rcases hsend : send env s "rate_test" w.net with ⟨c, net1⟩
  rw [hsend] at h
  cases c with
  | throw e => simp at h
  | normal u =>
    simp only [] at h ⊢
    rcases hloop : sendLoop env n s ⟨some 0, net1⟩ with ⟨c2, w2⟩
    rw [hloop] at h
    cases c2 with
    | throw e => simp at h
    | normal u2 =>
      simp only []
      have := sendLoop_normal_i env n s (n - 0).toNat 0 net1 rfl (by rw [hloop])
      rw [hloop] at this
      exact this

theorem dispatchOpen_entry (env : Env) (s : Nat) (net : Net) (v v1 : Option Int) :
    (dispatchOpen env s ⟨v, net⟩).2.net = (dispatchOpen env s ⟨v1, net⟩).2.net := by
  unfold dispatchOpen
  cases hsk : net.sockets[s]? with
  | none => simp
  | some sk =>
    simp only []
    cases hh : sk.onopen with
    | none => simp
    | some h =>
      cases h with
      | burst n s1 => exact (onopen_handler_entry env n s1 _ v v1).2

theorem step_entry (env : Env) (inp : Input) (net : Net) (v v1 : Option Int) :
    (step env inp ⟨v, net⟩).net = (step env inp ⟨v1, net⟩).net := by
  cases inp with
  | call_send_messages n => simp [step, send_messages]
  | call_make_connections n => simp [step, make_connections]
  | open_event s => exact dispatchOpen_entry env s net v v1
  | close_event s =>
    simp only [step, markClosed]
    cases net.sockets[s]? <;> simp

theorem run_isolated_net (env : Env) (inputs : List Input) :
    ∀ (w w1 : World), w.net = w1.net → (run env inputs w).net = (runIsolated env inputs w1).net := by
  induction inputs with
  | nil => intro w w1 h; exact h
  | cons inp rest ih =>
    intro w w1 h
    simp only [run, runIsolated, List.foldl_cons]
    apply ih
    obtain ⟨v, net⟩ := w
    obtain ⟨v1, net1⟩ := w1
    simp only at h
    subst h
    exact step_entry env inp net v none

/-- C10. The loop counter `i` is one global shared by the handler of `send_messages` and by
`make_connections`. For every integer count `n` and every content of `i` on entry, what each
of them does (the completion, the sockets and the trace; the handles returned) is the same,
and on normal completion each leaves `i` equal to `max(n, 0)`. Hence any sequence of whole
runs behaves as if every run had a counter of its own. -/
theorem global_counter_entry_value_irrelevant (env : Env) (n : Int) (s : Nat) (net : Net)
    (v v1 : Option Int) :
    ((onopen_handler env n s ⟨v, net⟩).1 = (onopen_handler env n s ⟨v1, net⟩).1 ∧
     (onopen_handler env n s ⟨v, net⟩).2.net = (onopen_handler env n s ⟨v1, net⟩).2.net) ∧
    ((onopen_handler env n s ⟨v, net⟩).1 = .normal () →
      (onopen_handler env n s ⟨v, net⟩).2.i = some (max n 0)) ∧
    make_connections n ⟨v, net⟩ = make_connections n ⟨v1, net⟩ ∧
    (∃ handles, (make_connections n ⟨v, net⟩).1 = .normal handles) ∧
    (make_connections n ⟨v, net⟩).2.i = some (max n 0) ∧
    ∀ inputs : List Input,
      (run env inputs ⟨v, net⟩).net = (runIsolated env inputs ⟨v1, net⟩).net := by
  refine ⟨onopen_handler_entry env n s net v v1, onopen_handler_normal_i env n s _, ?_, ?_, ?_, ?_⟩
  · rw [make_connections_eq, make_connections_eq]
  · rw [make_connections_eq]
    exact ⟨_, rfl⟩
  · rw [make_connections_eq]
    simp only [Option.some.injEq]
    omega
  · intro inputs
    exact run_isolated_net env inputs _ _ rfl

/-- Witness for C10: the handler of a burst of two on an open socket completes normally, and
leaves 2 in `i` although `i` held 7 on entry. -/
theorem global_counter_entry_value_irrelevant_witness :
    (onopen_handler Env.reliable 2 0 ⟨some 7, ⟨[⟨endpoint, .OPEN, none, 0⟩], []⟩⟩).2.i =
      some (max 2 0) :=
  (global_counter_entry_value_irrelevant Env.reliable 2 0 ⟨[⟨endpoint, .OPEN, none, 0⟩], []⟩
    (some 7) none).2.1
    (by rw [onopen_handler_ok Env.reliable 2 0 ⟨some 7, ⟨[⟨endpoint, .OPEN, none, 0⟩], []⟩⟩
      ⟨endpoint, .OPEN, none, 0⟩ rfl (by decide) (fun _ _ => rfl)])

/-! ## The text of the numbered messages -/

theorem toDigitsCore_acc (fuel : Nat) :
    ∀ (k : Nat) (ds : List Char),
      Nat.toDigitsCore 10 fuel k ds = Nat.toDigitsCore 10 fuel k [] ++ ds := by
  induction fuel with
  | zero => intro k ds; simp [Nat.toDigitsCore]
  | succ fuel ih =>
    intro k ds
    simp only [Nat.toDigitsCore]
    split
    · simp
    · rw [ih (k / 10) (Nat.digitChar (k % 10) :: ds), ih (k / 10) [Nat.digitChar (k % 10)]]
      simp

theorem toDigitsCore_succ (fuel k : Nat) :
    Nat.toDigitsCore 10 (fuel + 1) k [] =
      if k / 10 = 0 then [Nat.digitChar (k % 10)]
      else Nat.toDigitsCore 10 fuel (k / 10) [] ++ [Nat.digitChar (k % 10)] := by
  simp only [Nat.toDigitsCore]
  split
  · rfl
  · rw [toDigitsCore_acc]

theorem digitChar_value (d : Nat) (h : d < 10) : (Nat.digitChar d).toNat - '0'.toNat = d := by
  interval_cases d <;> rfl

theorem digitChar_isDigit (d : Nat) (h : d < 10) : (Nat.digitChar d).isDigit = true := by
  interval_cases d <;> rfl

theorem digitChar_ne_zero (d : Nat) (h0 : 0 < d) (h : d < 10) : Nat.digitChar d ≠ '0' := by
  interval_cases d <;> decide

theorem readDecimal_concat (l : List Char) (c : Char) :
    readDecimal (l ++ [c]) = 10 * readDecimal l + (c.toNat - '0'.toNat) := by
  simp [readDecimal, List.foldl_append]

theorem readDecimal_toDigitsCore (fuel : Nat) :
    ∀ k, k < fuel → readDecimal (Nat.toDigitsCore 10 fuel k []) = k := by
  induction fuel with
  | zero => intro k h; omega
  | succ fuel ih =>
    intro k h
    rw [toDigitsCore_succ]
    split
    · rename_i hz
      have hk : k % 10 = k := by omega
      rw [hk]
      have := digitChar_value k (by omega)
      simpa [readDecimal] using this
    · rename_i hz
      rw [readDecimal_concat, ih (k / 10) (by omega), digitChar_value _ (Nat.mod_lt _ (by decide))]
      omega

theorem toDigitsCore_digits (fuel : Nat) :
    ∀ k, ∀ c ∈ Nat.toDigitsCore 10 fuel k [], c.isDigit = true := by
  induction fuel with
  | zero => intro k c hc; simp [Nat.toDigitsCore] at hc
  | succ fuel ih =>
    intro k c hc
    rw [toDigitsCore_succ] at hc
    split at hc
    · simp only [List.mem_singleton] at hc
      rw [hc]
      exact digitChar_isDigit _ (Nat.mod_lt _ (by decide))
    · rcases List.mem_append.mp hc with h | h
      · exact ih _ c h
      · simp only [List.mem_singleton] at h
        rw [h]
        exact digitChar_isDigit _ (Nat.mod_lt _ (by decide))

theorem toDigitsCore_head (fuel : Nat) :
    ∀ k, 0 < k → k < fuel → ∃ c rest, Nat.toDigitsCore 10 fuel k [] = c :: rest ∧ c ≠ '0' := by
  induction fuel with
  | zero => intro k _ h; omega
  | succ fuel ih =>
    intro k h0 h
    rw [toDigitsCore_succ]
    split
    · rename_i hz
      have hk : k % 10 = k := by omega
      rw [hk]
      exact ⟨_, [], rfl, digitChar_ne_zero k h0 (by omega)⟩
    · rename_i hz
      obtain ⟨c, rest, h1, h2⟩ := ih (k / 10) (by omega) (by omega)
      exact ⟨c, rest ++ [Nat.digitChar (k % 10)], by rw [h1]; rfl, h2⟩

theorem repr_data (k : Nat) : (Nat.repr k).data = Nat.toDigitsCore 10 (k + 1) k [] := rfl

theorem readDecimal_repr (k : Nat) : readDecimal (Nat.repr k).data = k := by
  rw [repr_data]
  exact readDecimal_toDigitsCore _ k (by omega)

theorem numbered_text_data (k : Nat) :
    ("message #" ++ Nat.repr k).data.drop "message #".length = (Nat.repr k).data := by
  rw [String.data_append]
  exact List.drop_left' rfl

theorem numbered_text_injective :
    Function.Injective (fun (t : Nat) => "message #" ++ Nat.repr t) := by
  intro a b h
  have h1 : ("message #" ++ Nat.repr a).data.drop "message #".length =
      ("message #" ++ Nat.repr b).data.drop "message #".length := by
    simp only [] at h
    rw [h]
  rw [numbered_text_data, numbered_text_data] at h1
  have := congrArg readDecimal h1
  rwa [readDecimal_repr, readDecimal_repr] at this

/-- C8. For every count `n` and every index `k < n`, the numbered message for index `k` of a
burst (in which no send throws) is the text `"message #"` followed by the base-10 rendering of
`k`: a non-empty string of decimal digits, without leading zero (it begins with `0` only when
`k = 0`, where it is `"0"`), which read back gives `k`; and the numbered messages of the burst
are pairwise distinct. -/
theorem numbered_message_text (env : Env) (w : World) (n k : Nat) (hk : k < n)
    (hok : ∀ t, t ≤ n → env.sendThrows w.net.sockets.length t = false) :
    (burstMessages env n w)[k + 1]? = some ("message #" ++ Nat.repr k) ∧
    (Nat.repr k).data ≠ [] ∧
    (∀ c ∈ (Nat.repr k).data, c.isDigit = true) ∧
    ((Nat.repr k).data.head? = some '0' → k = 0) ∧
    Nat.repr 0 = "0" ∧
    readDecimal (("message #" ++ Nat.repr k).data.drop "message #".length) = k ∧
    (burstMessages env n w).tail.Nodup := by
  rw [burstMessages_ok env n w hok]
  refine ⟨by simp [List.getElem?_range, hk], ?_, ?_, ?_, rfl, ?_, ?_⟩
  · rw [repr_data, toDigitsCore_succ]
    split <;> simp
  · rw [repr_data]
    exact toDigitsCore_digits _ k
  · intro h
    by_contra hne
    obtain ⟨c, rest, h1, h2⟩ := toDigitsCore_head (k + 1) k (by omega) (by omega)
    rw [repr_data, h1] at h
    simp only [List.head?_cons, Option.some.injEq] at h
    exact h2 h
  · rw [numbered_text_data, readDecimal_repr]
  · simp only [List.tail_cons]
    exact List.Nodup.map numbered_text_injective (List.nodup_range n)

/-- Witness for C8: the message for index 11 in a burst of 12 on a reliable host. -/
theorem numbered_message_text_witness :
    (burstMessages Env.reliable (12 : Nat) World.init)[11 + 1]? =
      some ("message #" ++ Nat.repr 11) ∧
    readDecimal (("message #" ++ Nat.repr 11).data.drop "message #".length) = 11 :=
  have h := numbered_message_text Env.reliable World.init 12 11 (by decide) (fun _ _ => rfl)
  ⟨h.1, h.2.2.2.2.2.1⟩

/-! ## Sends happen only under the `open` event -/

theorem map_set_same {α β : Type} (f : α → β) (l : List α) (s : Nat) (a b : α)
    (h : l[s]? = some a) (hf : f b = f a) : (l.set s b).map f = l.map f := by
  have hs := lt_length_of_getElem? l s a h
  have ha : l[s] = a := by
    rw [List.getElem?_eq_getElem hs] at h
    exact Option.some.inj h
  apply List.ext_getElem (by simp)
  intro j h1 h2
  by_cases hj : s = j
  · subst hj; simp [hf, ha]
  · simp [List.getElem_set_ne hj]

theorem send_shape (env : Env) (s : Nat) (msg : String) (net : Net) :
    handlers (send env s msg net).2 = handlers net ∧
    ((send env s msg net).2.trace = net.trace ∨
      (send env s msg net).2.trace = net.trace ++ [Action.send s msg]) := by
  unfold send
  cases hsk : net.sockets[s]? with
  | none => simp
  | some sk =>
    simp only []
    split <;> exact ⟨map_set_same _ _ _ _ _ hsk rfl, Or.inr rfl⟩

theorem close_shape (s : Nat) (net : Net) :
    handlers (close s net) = handlers net ∧
    ((close s net).trace = net.trace ∨ (close s net).trace = net.trace ++ [Action.close s]) := by
  unfold close
  cases hsk : net.sockets[s]? with
  | none => simp
  | some sk => exact ⟨map_set_same _ _ _ _ _ hsk rfl, Or.inr rfl⟩

/-- The send loop only sends on its socket and leaves the handlers alone. -/
theorem sendLoop_shape (env : Env) (n : Int) (s : Nat) (m : Nat) :
    ∀ (w : World), (n - w.i.getD n).toNat = m →
      handlers (sendLoop env n s w).2.net = handlers w.net ∧
      ∃ l, (sendLoop env n s w).2.net.trace = w.net.trace ++ l ∧
        ∀ a ∈ l, ∃ msg, a = Action.send s msg := by
  induction m with
  | zero =>
    intro w hm
    rw [sendLoop_unfold]
    cases hi : w.i with
    | none => exact ⟨rfl, [], by simp, by simp⟩
    | some i0 =>
      rw [hi] at hm
      have : ¬ i0 < n := by simp only [Option.getD_some] at hm; omega
      simp [this]
  | succ m ih =>
    intro w hm
    rw [sendLoop_unfold]
    cases hi : w.i with
    | none => exact ⟨rfl, [], by simp, by simp⟩
    | some i0 =>
      rw [hi] at hm
      simp only [Option.getD_some] at hm
      have hlt : i0 < n := by omega
      simp only [hlt, if_true]
      have hsh := send_shape env s ("message #" ++ numberToString i0) w.net
      rcases hsend : send env s ("message #" ++ numberToString i0) w.net with ⟨c, net1⟩
      rw [hsend] at hsh
      simp only at hsh
      have hl1 : ∃ l1, net1.trace = w.net.trace ++ l1 ∧ ∀ a ∈ l1, ∃ msg, a = Action.send s msg := by
        rcases hsh.2 with h | h
        · exact ⟨[], by simp [h], by simp⟩
        · exact ⟨_, h, by simp⟩
      obtain ⟨l1, hl1, hl1s⟩ := hl1
      cases c with
      | throw e => exact ⟨hsh.1, l1, hl1, hl1s⟩
      | normal u =>
        simp only []
        obtain ⟨h1, l2, h2, h3⟩ := ih ⟨some (i0 + 1), net1⟩ (by simp only [Option.getD_some]; omega)
        refine ⟨h1.trans hsh.1, l1 ++ l2, ?_, ?_⟩
        · rw [h2]
          simp only [hl1, List.append_assoc]
        · intro a ha
          rcases List.mem_append.mp ha with h | h
          · exact hl1s a h
          · exact h3 a h

/-- The handler only sends on and closes its socket, and leaves the handlers alone. -/
theorem onopen_handler_shape (env : Env) (n : Int) (s : Nat) (w : World) :
    handlers (onopen_handler env n s w).2.net = handlers w.net ∧
    ∃ l, (onopen_handler env n s w).2.net.trace = w.net.trace ++ l ∧
      ∀ a ∈ l, (∃ msg, a = Action.send s msg) ∨ a = Action.close s := by
  unfold onopen_handler
  have hsh := send_shape env s "rate_test" w.net
  rcases hsend : send env s "rate_test" w.net with ⟨c, net1⟩
  rw [hsend] at hsh
  simp only at hsh
  have hl1 : ∃ l1, net1.trace = w.net.trace ++ l1 ∧
      ∀ a ∈ l1, (∃ msg, a = Action.send s msg) ∨ a = Action.close s := by
    rcases hsh.2 with h | h
    · exact ⟨[], by simp [h], by simp⟩
    · exact ⟨_, h, by simp⟩
  obtain ⟨l1, hl1, hl1s⟩ := hl1
  cases c with
  | throw e => exact ⟨hsh.1, l1, hl1, hl1s⟩
  | normal u =>
    simp only []
    obtain ⟨h1, l2, h2, h3⟩ := sendLoop_shape env n s _ ⟨some 0, net1⟩ rfl
    rcases hloop : sendLoop env n s ⟨some 0, net1⟩ with ⟨c2, w2⟩
    rw [hloop] at h1 h2
    simp only at h1 h2
    cases c2 with
    | throw e =>
      refine ⟨h1.trans hsh.1, l1 ++ l2, ?_, ?_⟩
      · simp only [h2, hl1, List.append_assoc]
      · intro a ha
        rcases List.mem_append.mp ha with h | h
        · exact hl1s a h
        · exact Or.inl (h3 a h)
    | normal u2 =>
      simp only []
      have hc := close_shape s w2.net
      have hl3 : ∃ l3, (close s w2.net).trace = w2.net.trace ++ l3 ∧
          ∀ a ∈ l3, (∃ msg, a = Action.send s msg) ∨ a = Action.close s := by
        rcases hc.2 with h | h
        · exact ⟨[], by simp [h], by simp⟩
        · exact ⟨_, h, by simp⟩
      obtain ⟨l3, hl3, hl3s⟩ := hl3
      refine ⟨hc.1.trans (h1.trans hsh.1), l1 ++ l2 ++ l3, ?_, ?_⟩
      · simp only [hl3, h2, hl1, List.append_assoc]
      · intro a ha
        rcases List.mem_append.mp ha with h | h
        · rcases List.mem_append.mp h with h | h
          · exact hl1s a h
          · exact Or.inl (h3 a h)
        · exact hl3s a h

theorem handlersOwn_of_eq (net net1 : Net) (h : handlers net1 = handlers net)
    (hown : HandlersOwn net) : HandlersOwn net1 := by
  intro k n s1 hk
  rw [h] at hk
  exact hown k n s1 hk

/-- The `open` event on socket `k` adds the event, then only sends on and closes of `k`. -/
theorem dispatchOpen_shape (env : Env) (k : Nat) (w : World) (hown : HandlersOwn w.net) :
    handlers (dispatchOpen env k w).2.net = handlers w.net ∧
    ∃ l, (dispatchOpen env k w).2.net.trace = w.net.trace ++ l ∧
      (l = [] ∨ ∃ l1, l = Action.openEvent k :: l1 ∧
        ∀ a ∈ l1, (∃ msg, a = Action.send k msg) ∨ a = Action.close k) := by
  unfold dispatchOpen
  cases hsk : w.net.sockets[k]? with
  | none => exact ⟨rfl, [], by simp, Or.inl rfl⟩
  | some sk =>
    obtain ⟨url, rs, oh, sc⟩ := sk
    simp only []
    cases oh with
    | none =>
      exact ⟨map_set_same _ _ _ _ _ hsk rfl, [Action.openEvent k], rfl, Or.inr ⟨[], rfl, by simp⟩⟩
    | some h =>
      cases h with
      | burst n s1 =>
        simp only []
        have hs1 : s1 = k := by
          apply hown k n s1
          simp [handlers, List.getElem?_map, hsk]
        subst hs1
        have hh1 : handlers
            ⟨w.net.sockets.set s1 ⟨url, .OPEN, some (.burst n s1), sc⟩,
              w.net.trace ++ [Action.openEvent s1]⟩ = handlers w.net :=
          map_set_same _ _ _ _ _ hsk rfl
        obtain ⟨h1, l, h2, h3⟩ := onopen_handler_shape env n s1
          ⟨w.i, ⟨w.net.sockets.set s1 ⟨url, .OPEN, some (.burst n s1), sc⟩,
            w.net.trace ++ [Action.openEvent s1]⟩⟩
        refine ⟨h1.trans hh1, Action.openEvent s1 :: l, ?_, Or.inr ⟨l, rfl, h3⟩⟩
        rw [h2]
        simp

/-- One turn keeps the handlers well-formed, and sends only under an `open` event. -/
theorem step_shape (env : Env) (inp : Input) (w : World) (hown : HandlersOwn w.net) :
    HandlersOwn (step env inp w).net ∧
    ∃ l, (step env inp w).net.trace = w.net.trace ++ l ∧
      ∀ s msg, Action.send s msg ∈ l →
        inp = Input.open_event s ∧ ∃ l1, l = Action.openEvent s :: l1 := by
  cases inp with
  | call_send_messages n =>
    simp only [step]
    rw [send_messages_eq]
    refine ⟨?_, _, rfl, by simp⟩
    intro k m s1 hk
    simp only [handlers, List.map_append, List.map_cons, List.map_nil] at hk
    by_cases hlt : k < w.net.sockets.length
    · rw [List.getElem?_append_left (by simpa using hlt)] at hk
      exact hown k m s1 hk
    · rw [List.getElem?_append_right (by simpa using hlt)] at hk
      simp only [List.length_map] at hk
      cases hd : k - w.net.sockets.length with
      | zero =>
        rw [hd] at hk
        simp only [List.getElem?_cons_zero, Option.some.injEq, Handler.burst.injEq] at hk
        omega
      | succ d =>
        rw [hd] at hk
        simp at hk
  | call_make_connections n =>
    simp only [step]
    rw [make_connections_eq]
    refine ⟨?_, _, rfl, by simp⟩
    intro k m s1 hk
    simp only [handlers, List.map_append, List.map_replicate] at hk
    by_cases hlt : k < w.net.sockets.length
    · rw [List.getElem?_append_left (by simpa using hlt)] at hk
      exact hown k m s1 hk
    · rw [List.getElem?_append_right (by simpa using hlt)] at hk
      rw [List.getElem?_replicate] at hk
      split at hk <;> simp at hk
  | open_event k =>
    simp only [step]
    obtain ⟨h1, l, h2, h3⟩ := dispatchOpen_shape env k w hown
    refine ⟨handlersOwn_of_eq _ _ h1 hown, l, h2, ?_⟩
    intro s msg hmem
    rcases h3 with h | ⟨l1, h, hl1⟩
    · rw [h] at hmem
      simp at hmem
    · rw [h] at hmem
      simp only [List.mem_cons, reduceCtorEq, false_or] at hmem
      rcases hl1 _ hmem with ⟨msg1, he⟩ | he
      · simp only [Action.send.injEq] at he
        rw [he.1]
        exact ⟨rfl, l1, h⟩
      · cases he
  | close_event k =>
    simp only [step, markClosed]
    cases hsk : w.net.sockets[k]? with
    | none => exact ⟨hown, [], by simp, by simp⟩
    | some sk =>
      refine ⟨handlersOwn_of_eq _ _ (map_set_same _ _ _ _ _ hsk rfl) hown, [], by simp, by simp⟩

theorem run_handlersOwn (env : Env) (inputs : List Input) :
    ∀ w, HandlersOwn w.net → HandlersOwn (run env inputs w).net := by
  induction inputs with
  | nil => intro w h; exact h
  | cons inp rest ih =>
    intro w h
    simp only [run, List.foldl_cons]
    exact ih _ (step_shape env inp w h).1

theorem openedBefore_of_no_send (s : Nat) (l : List Action)
    (h : ∀ msg, Action.send s msg ∉ l) : OpenedBefore s l := by
  intro pre msg post hl
  exfalso
  apply h msg
  rw [hl]
  simp

theorem openedBefore_append (s : Nat) (l1 l2 : List Action) (h1 : OpenedBefore s l1)
    (h2 : OpenedBefore s l2) : OpenedBefore s (l1 ++ l2) := by
  intro pre msg post hl
  rcases List.append_eq_append_iff.mp hl with ⟨a, ha1, ha2⟩ | ⟨b, hb1, hb2⟩
  · rw [ha1]
    exact List.mem_append_right _ (h2 a msg post ha2)
  · cases b with
    | nil =>
      simp only [List.nil_append] at hb2
      exact absurd (h2 [] msg post hb2.symm) (by simp)
    | cons x b =>
      simp only [List.cons_append, List.cons.injEq] at hb2
      apply h1 pre msg b
      rw [hb1, hb2.1]

/-- A sequence of turns from a well-formed state: every send on `s` is under an `open` event
of `s`, and without such an event in the inputs there is no send on `s` at all. -/
theorem run_shape (env : Env) (s : Nat) (inputs : List Input) :
    ∀ w, HandlersOwn w.net →
      ∃ l, (run env inputs w).net.trace = w.net.trace ++ l ∧ OpenedBefore s l ∧
        (Input.open_event s ∉ inputs → ∀ msg, Action.send s msg ∉ l) := by
  induction inputs with
  | nil =>
    intro w _
    exact ⟨[], by simp [run], openedBefore_of_no_send s [] (by simp), by simp⟩
  | cons inp rest ih =>
    intro w hown
    obtain ⟨hown1, l1, ht1, hs1⟩ := step_shape env inp w hown
    obtain ⟨l2, ht2, hb2, hn2⟩ := ih (step env inp w) hown1
    refine ⟨l1 ++ l2, ?_, ?_, ?_⟩
    · simp only [run, List.foldl_cons] at ht2 ⊢
      rw [ht2, ht1, List.append_assoc]
    · apply openedBefore_append s l1 l2 _ hb2
      intro pre msg post hl
      obtain ⟨_, l3, hl3⟩ := hs1 s msg (by rw [hl]; simp)
      rw [hl3] at hl
      cases pre with
      | nil => simp at hl
      | cons x pre =>
        simp only [List.cons_append, List.cons.injEq] at hl
        rw [← hl.1]
        simp
    · intro hnot msg hmem
      rcases List.mem_append.mp hmem with h | h
      · exact hnot (by rw [(hs1 s msg h).1]; simp)
      · exact hn2 (fun hc => hnot (List.mem_cons_of_mem _ hc)) msg h

theorem handlersOwn_init : HandlersOwn World.init.net := by
  intro k n s1 hk
  simp [handlers, World.init] at hk

/-- C6. For every count `n`, in every reachable state, `send_messages(n)` sends no message
before its connection is open: the call itself only creates the connection (which is then
connecting) and installs the open handler; in whatever happens afterwards, every send on the
connection comes after an open event of that connection; and if the open event never occurs,
no message is ever sent on it. -/
theorem send_messages_sends_only_after_open (env : Env) (past : List Input) (n : Int) :
    added (run env past World.init) (send_messages n (run env past World.init)) =
      [Action.construct (run env past World.init).net.sockets.length endpoint,
       Action.setOnopen (run env past World.init).net.sockets.length
         (.burst n (run env past World.init).net.sockets.length)] ∧
    (send_messages n (run env past World.init)).net.sockets[
        (run env past World.init).net.sockets.length]? =
      some ⟨endpoint, .CONNECTING,
        some (.burst n (run env past World.init).net.sockets.length), 0⟩ ∧
    (∀ (later : List Input) (pre : List Action) (msg : String) (post : List Action),
      added (run env past World.init)
          (run env later (send_messages n (run env past World.init))) =
        pre ++ Action.send (run env past World.init).net.sockets.length msg :: post →
      Action.openEvent (run env past World.init).net.sockets.length ∈ pre) ∧
    (∀ later : List Input,
      Input.open_event (run env past World.init).net.sockets.length ∉ later →
      ∀ msg, Action.send (run env past World.init).net.sockets.length msg ∉
        added (run env past World.init)
          (run env later (send_messages n (run env past World.init)))) := by
  have hown : HandlersOwn (run env past World.init).net :=
    run_handlersOwn env past _ handlersOwn_init
  have hown1 : HandlersOwn (send_messages n (run env past World.init)).net :=
    (step_shape env (.call_send_messages n) _ hown).1
  generalize run env past World.init = w at hown hown1 ⊢
  have hadd : ∀ later, ∃ l,
      added w (run env later (send_messages n w)) =
        [Action.construct w.net.sockets.length endpoint,
          Action.setOnopen w.net.sockets.length (.burst n w.net.sockets.length)] ++ l ∧
      OpenedBefore w.net.sockets.length l ∧
      (Input.open_event w.net.sockets.length ∉ later →
        ∀ msg, Action.send w.net.sockets.length msg ∉ l) := by
    intro later
    obtain ⟨l, h1, h2, h3⟩ := run_shape env w.net.sockets.length later _ hown1
    refine ⟨l, ?_, h2, h3⟩
    rw [added, h1, send_messages_eq]
    simp
  refine ⟨?_, ?_, ?_, ?_⟩
  · rw [send_messages_eq]
    simp [added]
  · rw [send_messages_eq]
    simp
  · intro later pre msg post hsplit
    obtain ⟨l, h1, h2, _⟩ := hadd later
    rw [h1] at hsplit
    exact openedBefore_append _ _ _ (openedBefore_of_no_send _ _ (by simp)) h2 pre msg post hsplit
  · intro later hnot msg
    obtain ⟨l, h1, _, h3⟩ := hadd later
    rw [h1]
    simpa using h3 hnot msg

/-- Witness for C6: after `send_messages(2)` in the initial state, another call and the loss
of the connection, without open event, leave no send on the connection. -/
theorem send_messages_sends_only_after_open_witness :
    Action.send (run Env.reliable [] World.init).net.sockets.length "rate_test" ∉
      added (run Env.reliable [] World.init)
        (run Env.reliable [Input.call_make_connections 1, Input.close_event 0]
          (send_messages 2 (run Env.reliable [] World.init))) :=
  (send_messages_sends_only_after_open Env.reliable [] 2).2.2.2
    [Input.call_make_connections 1, Input.close_event 0] (by decide) "rate_test"

end SocketHelper
